import Mathlib

/-!
# Verification of `src/python/analyze.py` (chess-analyzer)

A shallow embedding of the analysis script.  The script:

1. discovers `*.pgn` files in `./pgn` (`glob.glob`), raising
   `RuntimeError` if none are found;
2. parses every game of every file with the external black-box parser
   `chess.pgn.read_game`, appending one dict per game to `records`
   (keys `ECO`, `Opening`, `Moves`, `Result`, `Game`), raising
   `RuntimeError` if no game was parsed at all;
3. writes `opening_summary.csv` (counts per opening, descending) and then
   runs a (Opening, Result) aggregation chain whose
   `.to_csv("error_summary.csv")` returns `None`, so the following
   `.style` attribute access raises `AttributeError`; the by-ECO
   aggregation further down is therefore unreachable.

The external parser is modelled as a black box, as the spec prescribes: a
`Game` exposes a header lookup (`headers.get`) and the main move line
(`mainline_moves`).  Python strings are modelled as `List Char`; the
Python `str.split` / `in` / `replace` operations used by the script are
embedded below with Python semantics (left-to-right, non-overlapping
matches).
-/

/-! ## Python string operations on `List Char` -/

/-- One step bound (`fuel`) per consumed character makes the scan
structurally recursive; `pySplit` always supplies `fuel = s.length`,
which is enough, so the `0, s` fallback row is never reached.
Mirrors CPython `str.split(sep)` for a non-empty `sep`: scan left to
right, and on a match emit the accumulated piece and continue after the
matched separator (non-overlapping). -/
def pySplitGo (sep : List Char) (fuel : Nat) (s : List Char) (acc : List Char) :
    List (List Char) :=
  match fuel, s with
  | _, [] => [acc.reverse]
  | 0, s => [acc.reverse ++ s]
  | fuel + 1, c :: rest =>
    if sep.isPrefixOf (c :: rest) then
      acc.reverse :: pySplitGo sep fuel (rest.drop (sep.length - 1)) []
    else
      pySplitGo sep fuel rest (c :: acc)

/-- Python `s.split(sep)` for non-empty `sep` (the script only ever splits
on the literals `"/openings/"` and `"?"`; Python raises on an empty
separator, modelled here by the unused `[s]` row). -/
def pySplit (sep s : List Char) : List (List Char) :=
  match sep with
  | [] => [s]
  | _ :: _ => pySplitGo sep s.length s []

/-- Python `sub in s` (substring containment): some position of `s` starts
with `sub`. -/
def pyContains (sub s : List Char) : Bool :=
  (List.range (s.length + 1)).any fun i => sub.isPrefixOf (s.drop i)

/-! ## The black-box game parser interface -/

/-- A parsed game as exposed by the external parser: a header mapping and
the main move line (moves kept abstract as their SAN text). -/
structure Game where
  headers : List (String × String)
  mainlineMoves : List String
deriving DecidableEq

/-- `game.headers.get(k)`: first binding of the key, if any. -/
def Game.getHeader (g : Game) (k : String) : Option String :=
  (g.headers.find? fun p => p.1 = k).map (·.2)

/-- `game.headers.get(k, dflt)`. -/
def Game.getHeaderD (g : Game) (k dflt : String) : String :=
  (g.getHeader k).getD dflt

/-! ## Opening-name derivation (analyze.py lines 33-42) -/

/-- The separator literal `"/openings/"`. -/
def openingsSepL : List Char := "/openings/".toList

/-- `.split("?")[0]`: for the single-character separator `"?"` the first
split field is exactly the prefix before the first question mark. -/
def stripQuery (s : List Char) : List Char := s.takeWhile fun c => c ≠ '?'

/-- `.replace("-", " ")`: replacing a single-character pattern by a
single-character replacement is pointwise character substitution. -/
def dashesToSpaces (s : List Char) : List Char :=
  s.map fun c => if c = '-' then ' ' else c

/-- `eco_url.split("/openings/")[-1].split("?")[0].replace("-", " ")`.
Python `[-1]` is the last element; `split` never returns an empty list,
so `getLastD` never falls back. -/
def openingFromUrl (ecoUrl : String) : String :=
  ⟨dashesToSpaces (stripQuery ((pySplit openingsSepL ecoUrl.toList).getLastD []))⟩

/-- The `else` branch of the opening derivation: read `ECOUrl` (default
`""`), take the slug if `"/openings/"` occurs in it, else `"Unknown"`. -/
def openingFallback (g : Game) : String :=
  if pyContains openingsSepL (g.getHeaderD "ECOUrl" "").toList
  then openingFromUrl (g.getHeaderD "ECOUrl" "")
  else "Unknown"

/-- `opening = game.headers.get("Opening")`; `if not opening:` is true for
both a missing header (`None`) and an empty string. -/
def openingOf (g : Game) : String :=
  match g.getHeader "Opening" with
  | none => openingFallback g
  | some s => if s = "" then openingFallback g else s

/-! ## Record construction (analyze.py lines 29-56) -/

/-- A Python value occurring in one of the appended record dicts. -/
inductive PyVal where
  | str : String → PyVal
  | int : Nat → PyVal
  | game : Game → PyVal
deriving DecidableEq

/-- One element of `records`: the dict
`{"ECO": eco, "Opening": opening, "Moves": len(moves), "Result": result,
"Game": game}`, with named fields for the column accesses of the
aggregation stage. -/
structure RecordRow where
  eco : String
  opening : String
  moves : Nat
  result : String
  game : Game
deriving DecidableEq

/-- The record appended for one parsed game. -/
def recordOf (g : Game) : RecordRow :=
  { eco := g.getHeaderD "ECO" "Unknown"
    opening := openingOf g
    moves := g.mainlineMoves.length
    result := g.getHeaderD "Result" "*"
    game := g }

/-- The appended dict itself, in the key order written in the source. -/
def recDict (r : RecordRow) : List (String × PyVal) :=
  [("ECO", .str r.eco), ("Opening", .str r.opening), ("Moves", .int r.moves),
   ("Result", .str r.result), ("Game", .game r.game)]

/-! ## Aggregation (analyze.py lines 69-101)

pandas `groupby(…, sort=True)` lists the distinct group keys in ascending
order; Python string comparison is code-point lexicographic, as is Lean
`String` order.  `sort_values` uses numpy quicksort, which is
deterministic for a given input but whose tie order is unspecified; it is
modelled by a deterministic (stable) sort — no claim concerns tie order. -/

/-- Ascending lexicographic order on `(String, String)` group keys
(Python tuple comparison). -/
def keyLe (a b : String × String) : Prop :=
  a.1 < b.1 ∨ (a.1 = b.1 ∧ a.2 ≤ b.2)

instance : DecidableRel keyLe := fun a b => by unfold keyLe; infer_instance

instance : IsTotal (String × String) keyLe where
  total a b := by
    rcases lt_trichotomy a.1 b.1 with h | h | h
    · exact Or.inl (Or.inl h)
    · rcases le_total a.2 b.2 with h2 | h2
      · exact Or.inl (Or.inr ⟨h, h2⟩)
      · exact Or.inr (Or.inr ⟨h.symm, h2⟩)
    · exact Or.inr (Or.inl h)

instance : IsTrans (String × String) keyLe where
  trans a b c hab hbc := by
    rcases hab with h1 | ⟨e1, l1⟩
    · rcases hbc with h2 | ⟨e2, _⟩
      · exact Or.inl (h1.trans h2)
      · exact Or.inl (e2 ▸ h1)
    · rcases hbc with h2 | ⟨e2, l2⟩
      · exact Or.inl (e1 ▸ h2)
      · exact Or.inr ⟨e1.trans e2, l1.trans l2⟩

/-- Descending order on the second component, for
`sort_values(…, ascending=False)` on a count or rate column. -/
def descBySnd {α β : Type} [LinearOrder β] (a b : α × β) : Prop := b.2 ≤ a.2

instance {α β : Type} [LinearOrder β] : DecidableRel (@descBySnd α β _) :=
  fun a b => by unfold descBySnd; infer_instance

instance {α β : Type} [LinearOrder β] : IsTotal (α × β) descBySnd where
  total a b := (le_total b.2 a.2).imp id id

instance {α β : Type} [LinearOrder β] : IsTrans (α × β) descBySnd where
  trans _ _ _ hab hbc := le_trans hbc hab

/-- `df.groupby("Opening").size()`: count per distinct opening, keys ascending. -/
def groupSizes (names : List String) : List (String × Nat) :=
  (List.insertionSort (· ≤ ·) names.dedup).map fun k => (k, names.count k)

/-- `df.groupby("Opening").size().sort_values(ascending=False)`,
written to `opening_summary.csv`. -/
def openingSummary (names : List String) : List (String × Nat) :=
  List.insertionSort descBySnd (groupSizes names)

/-- `df.groupby([key, "Result"]).size().reset_index(name="Count")`:
count per distinct (category, result) pair, keys ascending. -/
def pairCounts (pairs : List (String × String)) : List ((String × String) × Nat) :=
  (List.insertionSort keyLe pairs.dedup).map fun k => (k, pairs.count k)

/-- `.sort_values("Count", ascending=False).head(10)`: the kept slice. -/
def top10 (pairs : List (String × String)) : List ((String × String) × Nat) :=
  (List.insertionSort descBySnd (pairCounts pairs)).take 10

/-- `d["Count"].sum()` inside `assign`: the count total of the kept slice
only (the frame was already truncated by `head(10)`). -/
def sliceTotal (pairs : List (String × String)) : Nat :=
  ((top10 pairs).map (·.2)).sum

/-- `.assign(WinRate=lambda d: d["Count"] / d["Count"].sum())
.sort_values("WinRate", ascending=False).drop("Count", axis=1)
.reset_index(drop=True).rename(columns={"Result": "Win"})`:
the rows written to `error_summary.csv`, with exact rational arithmetic
in place of IEEE floats. -/
def breakdownRows (pairs : List (String × String)) : List (String × String × ℚ) :=
  (List.insertionSort descBySnd
      ((top10 pairs).map fun p => (p.1, (p.2 : ℚ) / (sliceTotal pairs : ℚ)))).map
    fun p => (p.1.1, p.1.2, p.2)

/-! ## The whole run (analyze.py top level) -/

/-- Structured content of a written CSV file (column labels and the
pandas index column are not modelled at byte level). -/
inductive CsvContent where
  | counts : List (String × Nat) → CsvContent
  | breakdown : List (String × String × ℚ) → CsvContent
deriving DecidableEq

/-- Observable outcome of a run: the files written (in write order; a
later write to the same name would overwrite) and `none` for a normal
exit or `some msg` for an uncaught exception. -/
structure RunResult where
  outputs : List (String × CsvContent)
  exitMsg : Option String
deriving DecidableEq

/-- `RuntimeError(f"No .pgn files found in {PGN_DIR!r}")`. -/
def noFilesMsg : String := "No .pgn files found in \x27./pgn\x27"

/-- `RuntimeError("No games parsed! …")`. -/
def noGamesMsg : String := "No games parsed! Check your PGN files for valid games."

/-- `df.to_csv("error_summary.csv")` returns `None`, so the chained
`.style` access raises this uncaught exception (analyze.py line 90). -/
def styleErrMsg : String :=
  "AttributeError: \x27NoneType\x27 object has no attribute \x27style\x27"

/-- The run, as a function of the discovered files (each already parsed
into its game sequence by the black-box parser).  The by-ECO aggregation
(lines 105-128) is unreachable: the first aggregation chain always
raises `AttributeError` right after its `to_csv` write. -/
def run (files : List (List Game)) : RunResult :=
  if files.isEmpty then { outputs := [], exitMsg := some noFilesMsg }
  else
    let records := files.flatten.map recordOf
    if records.isEmpty then { outputs := [], exitMsg := some noGamesMsg }
    else
      { outputs :=
          [("opening_summary.csv", .counts (openingSummary (records.map (·.opening)))),
           ("error_summary.csv",
            .breakdown (breakdownRows (records.map fun r => (r.opening, r.result))))],
        exitMsg := some styleErrMsg }

/-- The rows the unreachable by-ECO chain (lines 105-128) would write. -/
def byEcoRows (records : List RecordRow) : List (String × String × ℚ) :=
  breakdownRows (records.map fun r => (r.eco, r.result))

/-! ## Supporting lemmas: the left-to-right split scan -/

theorem isPrefixOf_append_self (l t : List Char) : l.isPrefixOf (l ++ t) = true := by
  induction l with
  | nil => simp
  | cons c cs ih => simpa [List.isPrefixOf] using ih

/-- If `sub` is non-empty and Python `sub in s` is false, no position of
`s` starts with `sub`. -/
theorem noMatch_of_pyContains_false {sub s : List Char} (hsub : sub ≠ [])
    (h : pyContains sub s = false) (i : Nat) : sub.isPrefixOf (s.drop i) = false := by
  unfold pyContains at h
  by_cases hi : i < s.length + 1
  · exact Bool.eq_false_iff.mpr ((List.any_eq_false.mp h) i (List.mem_range.mpr hi))
  · rw [List.drop_eq_nil_of_le (by omega)]
    cases sub with
    | nil => exact absurd rfl hsub
    | cons c cs => rfl

/-- A decomposed occurrence makes Python `sub in s` true. -/
theorem pyContains_of_decomp (sub p t : List Char) :
    pyContains sub (p ++ sub ++ t) = true := by
  unfold pyContains
  rw [List.any_eq_true]
  refine ⟨p.length, List.mem_range.mpr (by simp; omega), ?_⟩
  rw [List.append_assoc, List.drop_left]
  exact isPrefixOf_append_self sub t

/-- A scan over match-free input never splits. -/
theorem pySplitGo_noMatch {sub : List Char} (fuel : Nat) :
    ∀ (s acc : List Char), s.length ≤ fuel →
      (∀ i, sub.isPrefixOf (s.drop i) = false) →
      pySplitGo sub fuel s acc = [acc.reverse ++ s] := by
  induction fuel with
  | zero =>
    intro s acc hf _
    have hs : s = [] := List.length_eq_zero.mp (Nat.le_zero.mp hf)
    subst hs
    simp [pySplitGo]
  | succ fuel ih =>
    intro s acc hf h
    cases s with
    | nil => simp [pySplitGo]
    | cons c rest =>
      have h0 : sub.isPrefixOf (c :: rest) = false := by simpa using h 0
      rw [pySplitGo, if_neg (by simp [h0])]
      rw [ih rest (c :: acc) (by simpa using hf)
          (fun i => by simpa [List.drop_succ_cons] using h (i + 1))]
      simp

/-- A scan that reaches the first match emits the skipped piece and
resumes right after the matched separator. -/
theorem pySplitGo_skip {sub : List Char} (hsub : sub ≠ []) :
    ∀ (p t : List Char) (fuel : Nat) (acc : List Char),
      (p ++ sub ++ t).length ≤ fuel →
      (∀ i < p.length, sub.isPrefixOf ((p ++ sub ++ t).drop i) = false) →
      ∃ fuel2, t.length ≤ fuel2 ∧
        pySplitGo sub fuel (p ++ sub ++ t) acc =
          (acc.reverse ++ p) :: pySplitGo sub fuel2 t [] := by
  intro p
  induction p with
  | nil =>
    intro t fuel acc hf _
    cases sub with
    | nil => exact absurd rfl hsub
    | cons c cs =>
      cases fuel with
      | zero => simp at hf
      | succ fuel =>
        refine ⟨fuel, by simp at hf; omega, ?_⟩
        simp only [List.nil_append, List.cons_append]
        rw [pySplitGo, if_pos (by simpa using isPrefixOf_append_self (c :: cs) t)]
        have hdrop : (cs ++ t).drop ((c :: cs).length - 1) = t := by
          simpa using List.drop_left cs t
        rw [hdrop]
        simp
  | cons c p ih =>
    intro t fuel acc hf h
    cases fuel with
    | zero => simp at hf
    | succ fuel =>
      have h0 : sub.isPrefixOf ((c :: p) ++ sub ++ t) = false := by
        have := h 0 (by simp)
        rwa [List.drop_zero] at this
      have hstep : pySplitGo sub (fuel + 1) ((c :: p) ++ sub ++ t) acc =
          pySplitGo sub fuel (p ++ sub ++ t) (c :: acc) := by
        simp only [List.cons_append]
        rw [pySplitGo, if_neg (Bool.eq_false_iff.mp (by simpa [List.cons_append] using h0))]
      rcases ih t fuel (c :: acc) (by simp at hf ⊢; omega)
          (fun i hi => by
            simpa [List.drop_succ_cons] using h (i + 1) (by simpa using Nat.succ_lt_succ hi))
        with ⟨fuel2, hf2, heq⟩
      refine ⟨fuel2, hf2, ?_⟩
      rw [hstep, heq]
      simp

/-- One scan-relevant occurrence: `split` yields the two surrounding pieces. -/
theorem pySplit_single (sub p t : List Char) (hsub : sub ≠ [])
    (hp : ∀ i < p.length, sub.isPrefixOf ((p ++ sub ++ t).drop i) = false)
    (ht : ∀ i, sub.isPrefixOf (t.drop i) = false) :
    pySplit sub (p ++ sub ++ t) = [p, t] := by
  cases hs : sub with
  | nil => exact absurd hs hsub
  | cons c cs =>
    rw [← hs]
    have hrun : pySplit sub (p ++ sub ++ t) =
        pySplitGo sub (p ++ sub ++ t).length (p ++ sub ++ t) [] := by
      rw [hs]; rfl
    rcases pySplitGo_skip hsub p t (p ++ sub ++ t).length [] (le_refl _) hp with
      ⟨fuel2, hf2, heq⟩
    rw [hrun, heq, pySplitGo_noMatch fuel2 t [] hf2 ht]
    simp

/-- A scan decomposition of an input with `k ≥ 0` scan matches: the
input written as `p1 ++ sep ++ (p2 ++ sep ++ (… ++ (pk ++ sep ++ t)))`,
one leading piece per match, tail `t` after the last match. -/
def scanDecomp (sep : List Char) : List (List Char) → List Char → List Char
  | [], t => t
  | p :: rest, t => p ++ sep ++ scanDecomp sep rest t

/-- The decomposition is the one the left-to-right scan finds: no scan
match starts strictly inside a leading piece, and none starts in the
tail. -/
def scanOk (sep : List Char) : List (List Char) → List Char → Prop
  | [], t => ∀ i, sep.isPrefixOf (t.drop i) = false
  | p :: rest, t =>
    (∀ i < p.length, sep.isPrefixOf ((scanDecomp sep (p :: rest) t).drop i) = false) ∧
    scanOk sep rest t

/-- Any number of scan matches: the scan yields the leading pieces
followed by the tail after the last match. -/
theorem pySplitGo_scanDecomp {sep : List Char} (hsub : sep ≠ []) :
    ∀ (ps : List (List Char)) (t : List Char) (fuel : Nat),
      (scanDecomp sep ps t).length ≤ fuel → scanOk sep ps t →
      pySplitGo sep fuel (scanDecomp sep ps t) [] = ps ++ [t] := by
  intro ps
  induction ps with
  | nil =>
    intro t fuel hf h
    simpa using pySplitGo_noMatch fuel t [] hf h
  | cons p rest ih =>
    intro t fuel hf h
    rcases pySplitGo_skip hsub p (scanDecomp sep rest t) fuel [] hf h.1 with
      ⟨fuel2, hf2, heq⟩
    rw [show scanDecomp sep (p :: rest) t = p ++ sep ++ scanDecomp sep rest t from rfl,
      heq, ih t fuel2 hf2 h.2]
    simp

/-- `split` on a full scan decomposition: the pieces, then the tail
after the LAST scan match as the final field. -/
theorem pySplit_scanDecomp {sep : List Char} (hsub : sep ≠ [])
    (ps : List (List Char)) (t : List Char) (h : scanOk sep ps t) :
    pySplit sep (scanDecomp sep ps t) = ps ++ [t] := by
  cases hs : sep with
  | nil => exact absurd hs hsub
  | cons c cs =>
    rw [← hs]
    have hrun : pySplit sep (scanDecomp sep ps t) =
        pySplitGo sep (scanDecomp sep ps t).length (scanDecomp sep ps t) [] := by
      rw [hs]; rfl
    rw [hrun, pySplitGo_scanDecomp hsub ps t _ (le_refl _) h]

/-! ## Supporting lemmas: the opening derivation -/

theorem openingsSepL_ne_nil : openingsSepL ≠ [] := by decide

/-- `if not opening:` taken: the header is missing or empty. -/
def openingAbsent (g : Game) : Prop :=
  g.getHeader "Opening" = none ∨ g.getHeader "Opening" = some ""

theorem openingOf_fallback {g : Game} (h : openingAbsent g) :
    openingOf g = openingFallback g := by
  unfold openingOf
  rcases h with h | h <;> rw [h] <;> simp

/-- The URL branch with exactly one scan-relevant `"/openings/"`
occurrence: the name is the remainder, query-stripped and de-dashed. -/
theorem openingOf_url_single (g : Game) (p t : List Char) (habs : openingAbsent g)
    (hurl : (g.getHeaderD "ECOUrl" "").toList = p ++ openingsSepL ++ t)
    (hp : ∀ i < p.length, openingsSepL.isPrefixOf ((p ++ openingsSepL ++ t).drop i) = false)
    (ht : pyContains openingsSepL t = false) :
    openingOf g = ⟨dashesToSpaces (stripQuery t)⟩ := by
  rw [openingOf_fallback habs]
  unfold openingFallback openingFromUrl
  rw [hurl, if_pos (pyContains_of_decomp openingsSepL p t)]
  rw [pySplit_single openingsSepL p t openingsSepL_ne_nil hp
      (noMatch_of_pyContains_false openingsSepL_ne_nil ht)]
  rfl

/-- The URL branch with any positive number of scan matches of
`"/openings/"`: the name comes from the remainder after the LAST scan
match. -/
theorem openingOf_url_scan (g : Game) (ps : List (List Char)) (t : List Char)
    (habs : openingAbsent g) (hne : ps ≠ [])
    (hurl : (g.getHeaderD "ECOUrl" "").toList = scanDecomp openingsSepL ps t)
    (hok : scanOk openingsSepL ps t) :
    openingOf g = ⟨dashesToSpaces (stripQuery t)⟩ := by
  rw [openingOf_fallback habs]
  unfold openingFallback openingFromUrl
  rw [hurl]
  cases ps with
  | nil => exact absurd rfl hne
  | cons p rest =>
    rw [if_pos (show pyContains openingsSepL (scanDecomp openingsSepL (p :: rest) t) = true
      from pyContains_of_decomp openingsSepL p (scanDecomp openingsSepL rest t))]
    rw [pySplit_scanDecomp openingsSepL_ne_nil (p :: rest) t hok]
    rw [List.getLastD_concat]

/-! ## Concrete games used as witnesses and counterexamples -/

/-- A game whose opening comes from the explicit header. -/
def gHdr : Game := ⟨[("Opening", "Queens Gambit")], []⟩

/-- A game whose opening comes from the `ECOUrl` slug. -/
def gUrl : Game :=
  ⟨[("ECOUrl", "https://a.b/openings/Queens-Gambit-Declined?variant=x")], []⟩

/-- A game with neither opening source. -/
def gNone : Game := ⟨[("Result", "1-0")], ["e4"]⟩

/-- A game whose `ECOUrl` holds two overlapping occurrences of
`"/openings/"` (positions 0 and 9). -/
def gOverlap : Game := ⟨[("ECOUrl", "/openings/openings/x")], []⟩

/-- A game whose `ECOUrl` holds two disjoint occurrences of `"/openings/"`. -/
def gDouble : Game := ⟨[("ECOUrl", "x/openings/A/openings/B-C?d=1")], []⟩

/-- A game whose `ECOUrl` holds three disjoint occurrences of `"/openings/"`. -/
def gTriple : Game := ⟨[("ECOUrl", "/openings/A/openings/B/openings/C")], []⟩

/-- **C4**: for every parsed game, `opening_name` is the non-empty
`Opening` header when present; otherwise, when `ECOUrl` contains
`"/openings/"`, it is the slug after that segment (here: the unambiguous
case of exactly one scan occurrence, the multi-occurrence case being
claim C10), query-stripped at the first `?` and with dashes replaced by
spaces; otherwise exactly `"Unknown"`. -/
theorem c4_opening_name_derivation :
    (∀ (g : Game) (s : String), g.getHeader "Opening" = some s → s ≠ "" →
      openingOf g = s) ∧
    (∀ (g : Game) (p t : List Char), openingAbsent g →
      (g.getHeaderD "ECOUrl" "").toList = p ++ openingsSepL ++ t →
      (∀ i < p.length, openingsSepL.isPrefixOf ((p ++ openingsSepL ++ t).drop i) = false) →
      pyContains openingsSepL t = false →
      openingOf g = ⟨dashesToSpaces (stripQuery t)⟩) ∧
    (∀ g : Game, openingAbsent g →
      pyContains openingsSepL (g.getHeaderD "ECOUrl" "").toList = false →
      openingOf g = "Unknown") := by
  refine ⟨?_, ?_, ?_⟩
  · intro g s h hs
    simp [openingOf, h, hs]
  · intro g p t habs hurl hp ht
    exact openingOf_url_single g p t habs hurl hp ht
  · intro g habs hnc
    rw [openingOf_fallback habs]
    unfold openingFallback
    rw [if_neg (Bool.eq_false_iff.mp hnc)]

/-- Witness for C4: the three branches at the spec's example inputs. -/
theorem c4_witness :
    openingOf gHdr = "Queens Gambit" ∧
    openingOf gUrl = "Queens Gambit Declined" ∧
    openingOf gNone = "Unknown" := by
  refine ⟨?_, ?_, ?_⟩
  · exact c4_opening_name_derivation.1 gHdr "Queens Gambit" (by decide) (by decide)
  · exact (c4_opening_name_derivation.2.1 gUrl "https://a.b".toList
      "Queens-Gambit-Declined?variant=x".toList (Or.inl rfl) (by decide) (by decide)
      (by decide)).trans (by decide)
  · exact c4_opening_name_derivation.2.2 gNone (Or.inl rfl) (by decide)

/-- Counterexample for C10 as stated: in
`ECOUrl = "/openings/openings/x"` the separator occurs twice (at 0 and,
overlapping it, at 9); the text after the LAST occurrence is `"x"`, yet
the code derives `"openings/x"` (the split scan consumes the occurrence
at 0 and finds no further match in the remainder `"openings/x"`). -/
theorem c10_counterexample :
    (gOverlap.getHeaderD "ECOUrl" "").toList
        = "/openings".toList ++ openingsSepL ++ "x".toList ∧
    openingsSepL.isPrefixOf ((gOverlap.getHeaderD "ECOUrl" "").toList.drop 0) = true ∧
    pyContains openingsSepL "x".toList = false ∧
    openingOf gOverlap = "openings/x" ∧
    ("openings/x" : String) ≠ ⟨dashesToSpaces (stripQuery "x".toList)⟩ := by
  exact ⟨by decide, by decide, by decide, by decide, by decide⟩

/-- **C10** (amended): when the `Opening` header is absent or empty and
the split scan of `ECOUrl` on `"/openings/"` matches at least once — the
URL decomposes into any number `k ≥ 1` of scan pieces, which covers
every URL containing the separator more than once, occurrences
overlapping or not — the derived name comes from the text after the LAST
scan match (equal to the text after the last occurrence whenever no
occurrence overlaps an earlier one), with the query stripped at the
first `?` of that remainder. -/
theorem c10_last_scan_match (g : Game) (ps : List (List Char)) (t : List Char)
    (habs : openingAbsent g) (hne : ps ≠ [])
    (hurl : (g.getHeaderD "ECOUrl" "").toList = scanDecomp openingsSepL ps t)
    (hok : scanOk openingsSepL ps t) :
    openingOf g = ⟨dashesToSpaces (stripQuery t)⟩ :=
  openingOf_url_scan g ps t habs hne hurl hok

/-- Witness for the amended C10 at two, three, and (overlapping) one
scan matches: `gDouble` has two disjoint occurrences, `gTriple` three,
and `gOverlap` — the counterexample input — two occurrences but a
single scan match. -/
theorem c10_witness :
    openingOf gDouble = "B C" ∧ openingOf gTriple = "C" ∧
    openingOf gOverlap = "openings/x" := by
  refine ⟨?_, ?_, ?_⟩
  · exact (c10_last_scan_match gDouble ["x".toList, "A".toList] "B-C?d=1".toList
      (Or.inl rfl) (by decide) (by decide)
      ⟨by decide, by decide,
       noMatch_of_pyContains_false openingsSepL_ne_nil (by decide)⟩).trans (by decide)
  · exact (c10_last_scan_match gTriple [[], "A".toList, "B".toList] "C".toList
      (Or.inl rfl) (by decide) (by decide)
      ⟨by decide, by decide, by decide,
       noMatch_of_pyContains_false openingsSepL_ne_nil (by decide)⟩).trans (by decide)
  · exact (c10_last_scan_match gOverlap [[]] "openings/x".toList
      (Or.inl rfl) (by decide) (by decide)
      ⟨by decide,
       noMatch_of_pyContains_false openingsSepL_ne_nil (by decide)⟩).trans (by decide)

/-! ## Claims about the guards and the abort (C1, C3, C6, C7) -/

/-- A one-game input file used to evaluate the run concretely. -/
def gItalian : Game :=
  ⟨[("ECO", "C50"), ("Opening", "Italian Game"), ("Result", "1-0")],
   ["e4", "e5", "Nf3", "Nc6", "Bc4"]⟩

/-- **C6**: with no discovered files the run fails immediately with the
descriptive `RuntimeError` naming the searched directory `./pgn`, and no
output file is written. -/
theorem c6_no_files_guard :
    run [] = ⟨[], some noFilesMsg⟩ ∧
    pyContains "./pgn".toList noFilesMsg.toList = true :=
  ⟨rfl, by decide⟩

/-- **C7**: with files but zero parsed games the run fails fatally with
the `"No games parsed!"` error before any aggregation or write. -/
theorem c7_no_games_guard (fs : List (List Game)) (h1 : fs ≠ [])
    (h2 : fs.flatten = []) : run fs = ⟨[], some noGamesMsg⟩ := by
  unfold run
  rw [if_neg (by rw [List.isEmpty_eq_false.mpr h1]; exact Bool.false_ne_true)]
  have : fs.flatten.map recordOf = [] := by rw [h2]; rfl
  simp only [this]
  rfl

/-- Witness for C7: one discovered file containing zero games. -/
theorem c7_witness : run [[]] = ⟨[], some noGamesMsg⟩ :=
  c7_no_games_guard [[]] (by decide) rfl

/-- **C1** is violated by the code (code bug): on any input that reaches
aggregation, the run writes `opening_summary.csv` and the first
`error_summary.csv` and then aborts with `AttributeError` (line 90:
`.style` on the `None` returned by `to_csv`), so it writes *some but not
all* aggregation outputs and never exits normally. -/
theorem c1_aborts_after_partial_aggregation_output :
    (run [[gItalian]]).outputs.map Prod.fst
        = ["opening_summary.csv", "error_summary.csv"] ∧
    (run [[gItalian]]).exitMsg = some styleErrMsg :=
  ⟨by decide, by decide⟩

/-- **C3** is violated by the code (code bug): both breakdown chains do
name `error_summary.csv`, but the run aborts before the by-ECO chain, so
after every run the surviving `error_summary.csv` holds the by-OPENING
breakdown, which differs from the by-ECO rows. -/
theorem c3_surviving_file_is_by_opening :
    (run [[gItalian]]).outputs.getLast? = some ("error_summary.csv",
      CsvContent.breakdown (breakdownRows [("Italian Game", "1-0")])) ∧
    byEcoRows [recordOf gItalian] = breakdownRows [("C50", "1-0")] ∧
    breakdownRows [("Italian Game", "1-0")] ≠ breakdownRows [("C50", "1-0")] ∧
    (run [[gItalian]]).exitMsg = some styleErrMsg :=
  ⟨rfl, rfl, by decide, by decide⟩

/-! ## Claim C8: the shape of an appended record -/

/-- A game whose `Result` header is a non-standard token. -/
def gBadResult : Game := ⟨[("Result", "??")], []⟩

/-- Counterexample for C8 as stated: the appended dict has a fifth key
`"Game"` (the parsed game object), and `result` is the header value
verbatim, not necessarily one of the four standard tokens. -/
theorem c8_counterexample :
    (recDict (recordOf gBadResult)).map Prod.fst
        = ["ECO", "Opening", "Moves", "Result", "Game"] ∧
    ((recDict (recordOf gBadResult)).map Prod.fst).length ≠ 4 ∧
    (recordOf gBadResult).result = "??" ∧
    "??" ∉ (["1-0", "0-1", "1/2-1/2", "*"] : List String) := by
  decide

/-- **C8** (amended): every appended record consists of exactly five
fields — `ECO` (default `"Unknown"`), `Opening` (the derived name),
`Moves` (the main-line length, a `Nat`, hence never negative), `Result`
(the header value verbatim, default `"*"`), and the parsed `Game`
itself — and nothing else. -/
theorem c8_record_fields (g : Game) :
    (recDict (recordOf g)).map Prod.fst
        = ["ECO", "Opening", "Moves", "Result", "Game"] ∧
    (recordOf g).eco = (g.getHeader "ECO").getD "Unknown" ∧
    (recordOf g).opening = openingOf g ∧
    (recordOf g).moves = g.mainlineMoves.length ∧
    (recordOf g).result = (g.getHeader "Result").getD "*" ∧
    (recordOf g).game = g :=
  ⟨rfl, rfl, rfl, rfl, rfl, rfl⟩

/-! ## Claim C9: determinism in the input contents -/

/-- **C9**: the run outcome — every written file and the exit status —
is a function of the concatenated stream of parsed games alone, so two
runs over unchanged inputs (discovery order aside) produce identical
outputs; grouping, sorting, tie-breaking, rate computation and
serialization introduce no nondeterminism. -/
theorem c9_deterministic_in_contents (fs1 fs2 : List (List Game))
    (h1 : fs1 ≠ []) (h2 : fs2 ≠ []) (h : fs1.flatten = fs2.flatten) :
    run fs1 = run fs2 := by
  have e1 : fs1.isEmpty = false := List.isEmpty_eq_false.mpr h1
  have e2 : fs2.isEmpty = false := List.isEmpty_eq_false.mpr h2
  simp only [run, e1, e2, h, Bool.false_eq_true, if_false]

/-- Witness for C9: the same two games split over one or two files. -/
theorem c9_witness : run [[gItalian], [gNone]] = run [[gItalian, gNone]] :=
  c9_deterministic_in_contents [[gItalian], [gNone]] [[gItalian, gNone]]
    (by decide) (by decide) rfl

/-! ## Supporting lemmas: grouping and counting -/

theorem sum_map_count_dedup {α : Type} [DecidableEq α] (l : List α) :
    (l.dedup.map fun a => l.count a).sum = l.length := by
  rw [← List.sum_toFinset _ (List.nodup_dedup l)]
  have h : l.dedup.toFinset = l.toFinset := by
    ext a
    simp [List.mem_toFinset]
  rw [h, List.sum_toFinset_count_eq_length]

/-- The full description of `opening_summary.csv`: distinct keys, counts
summing to the table size, descending order, no truncation. -/
theorem openingSummary_spec (names : List String) :
    ((openingSummary names).map Prod.fst).Nodup ∧
    (∀ k, k ∈ (openingSummary names).map Prod.fst ↔ k ∈ names) ∧
    ((openingSummary names).map Prod.snd).sum = names.length ∧
    (openingSummary names).Sorted descBySnd ∧
    (openingSummary names).length = names.dedup.length := by
  have hperm : (openingSummary names).Perm (groupSizes names) :=
    List.perm_insertionSort _ _
  have hfst : (groupSizes names).map Prod.fst =
      List.insertionSort (· ≤ ·) names.dedup := by
    simp [groupSizes, List.map_map, Function.comp_def]
  have hkeys : ((openingSummary names).map Prod.fst).Perm names.dedup := by
    have h1 := hperm.map Prod.fst
    rw [hfst] at h1
    exact h1.trans (List.perm_insertionSort _ _)
  refine ⟨?_, ?_, ?_, ?_, ?_⟩
  · exact hkeys.nodup_iff.mpr (List.nodup_dedup names)
  · intro k
    rw [hkeys.mem_iff, List.mem_dedup]
  · have hsnd : ((openingSummary names).map Prod.snd).Perm
        (names.dedup.map fun k => names.count k) := by
      have h1 := hperm.map Prod.snd
      have h2 : (groupSizes names).map Prod.snd =
          (List.insertionSort (· ≤ ·) names.dedup).map fun k => names.count k := by
        simp [groupSizes, List.map_map, Function.comp_def]
      rw [h2] at h1
      exact h1.trans ((List.perm_insertionSort _ _).map _)
    rw [hsnd.sum_eq, sum_map_count_dedup]
  · exact List.sorted_insertionSort descBySnd (groupSizes names)
  · simp [openingSummary, groupSizes, List.length_insertionSort]

/-- Unfolding the run on a non-degenerate input. -/
theorem run_of_nonempty (fs : List (List Game)) (h1 : fs ≠ [])
    (h2 : fs.flatten ≠ []) :
    run fs = ⟨[("opening_summary.csv", CsvContent.counts
            (openingSummary ((fs.flatten.map recordOf).map RecordRow.opening))),
         ("error_summary.csv", CsvContent.breakdown
            (breakdownRows ((fs.flatten.map recordOf).map
              (fun r => (r.opening, r.result)))))],
      some styleErrMsg⟩ := by
  have e1 : fs.isEmpty = false := List.isEmpty_eq_false.mpr h1
  have e2 : (fs.flatten.map recordOf).isEmpty = false :=
    List.isEmpty_eq_false.mpr fun hmap => h2 (List.map_eq_nil_iff.mp hmap)
  simp only [run, e1, e2, Bool.false_eq_true, if_false]

/-- **C5**: `opening_summary.csv` is the first file written, and for a
table of N records it holds exactly one entry per distinct opening name,
counts summing to N, sorted descending by count, with no truncation. -/
theorem c5_opening_summary (fs : List (List Game)) (h1 : fs ≠ [])
    (h2 : fs.flatten ≠ []) :
    (run fs).outputs.head? = some ("opening_summary.csv", CsvContent.counts
      (openingSummary ((fs.flatten.map recordOf).map RecordRow.opening))) ∧
    (((openingSummary ((fs.flatten.map recordOf).map RecordRow.opening)).map
        Prod.fst).Nodup) ∧
    (∀ k, k ∈ (openingSummary ((fs.flatten.map recordOf).map RecordRow.opening)).map
        Prod.fst ↔ k ∈ (fs.flatten.map recordOf).map RecordRow.opening) ∧
    ((openingSummary ((fs.flatten.map recordOf).map RecordRow.opening)).map
        Prod.snd).sum = (fs.flatten.map recordOf).length ∧
    (openingSummary ((fs.flatten.map recordOf).map RecordRow.opening)).Sorted
        descBySnd ∧
    (openingSummary ((fs.flatten.map recordOf).map RecordRow.opening)).length
        = ((fs.flatten.map recordOf).map RecordRow.opening).dedup.length := by
  rcases openingSummary_spec ((fs.flatten.map recordOf).map RecordRow.opening) with
    ⟨hnodup, hmem, hsum, hsorted, hlen⟩
  refine ⟨?_, hnodup, hmem, ?_, hsorted, hlen⟩
  · rw [run_of_nonempty fs h1 h2]
    rfl
  · rw [hsum, List.length_map]

/-- Witness for C5: two files, three games over two openings. -/
theorem c5_witness :
    (run [[gItalian], [gItalian, gNone]]).outputs.head? =
      some ("opening_summary.csv", CsvContent.counts
        (openingSummary [openingOf gItalian, openingOf gItalian, openingOf gNone])) ∧
    ((openingSummary [openingOf gItalian, openingOf gItalian, openingOf gNone]).map
        Prod.snd).sum = 3 :=
  ⟨(c5_opening_summary [[gItalian], [gItalian, gNone]] (by decide) (by decide)).1,
   (c5_opening_summary [[gItalian], [gItalian, gNone]] (by decide) (by decide)).2.2.2.1⟩

/-! ## Supporting lemmas: the truncated, re-normalized breakdown -/

theorem pairCounts_mem {pairs : List (String × String)}
    {x : (String × String) × Nat} (hx : x ∈ pairCounts pairs) :
    0 < x.2 ∧ x.1 ∈ pairs := by
  rcases List.mem_map.mp hx with ⟨k, hk, rfl⟩
  have hk2 : k ∈ pairs := List.mem_dedup.mp ((List.mem_insertionSort keyLe).mp hk)
  exact ⟨List.count_pos_iff.mpr hk2, hk2⟩

theorem top10_subset {pairs : List (String × String)}
    {x : (String × String) × Nat} (hx : x ∈ top10 pairs) : x ∈ pairCounts pairs :=
  (List.mem_insertionSort descBySnd).mp (List.mem_of_mem_take hx)

theorem top10_ne_nil {pairs : List (String × String)} (h : pairs ≠ []) :
    top10 pairs ≠ [] := by
  have hlen : 0 < (pairCounts pairs).length := by
    rw [pairCounts, List.length_map, List.length_insertionSort, List.length_pos]
    intro hd
    exact h ((List.dedup_eq_nil pairs).mp hd)
  refine List.ne_nil_of_length_pos ?_
  rw [top10, List.length_take, List.length_insertionSort]
  exact lt_min_iff.mpr ⟨by norm_num, hlen⟩

theorem sliceTotal_pos {pairs : List (String × String)} (h : pairs ≠ []) :
    0 < sliceTotal pairs := by
  rcases List.exists_mem_of_ne_nil _ (top10_ne_nil h) with ⟨x, hx⟩
  have hxpos : 0 < x.2 := (pairCounts_mem (top10_subset hx)).1
  by_contra h0
  have h0' : sliceTotal pairs = 0 := Nat.eq_zero_of_not_pos h0
  have := List.sum_eq_zero_iff.mp h0' x.2
    (List.mem_map_of_mem (fun p => p.2) hx)
  omega

theorem list_sum_map_div {α : Type} (l : List α) (f : α → ℚ) (c : ℚ) :
    (l.map fun x => f x / c).sum = (l.map f).sum / c := by
  induction l with
  | nil => simp
  | cons a l ih => simp [ih, add_div]

/-- The rate column of one breakdown sums to exactly 1. -/
theorem breakdownRows_sum {pairs : List (String × String)} (h : pairs ≠ []) :
    ((breakdownRows pairs).map fun r => r.2.2).sum = 1 := by
  have hT : ((sliceTotal pairs : ℚ)) ≠ 0 :=
    Nat.cast_ne_zero.mpr (Nat.pos_iff_ne_zero.mp (sliceTotal_pos h))
  unfold breakdownRows
  rw [List.map_map]
  have hcomp : ((fun r : String × String × ℚ => r.2.2) ∘
      (fun p : (String × String) × ℚ => (p.1.1, p.1.2, p.2))) =
      fun p : (String × String) × ℚ => p.2 := rfl
  rw [hcomp]
  have hperm := (List.perm_insertionSort descBySnd
      ((top10 pairs).map fun p => (p.1, (p.2 : ℚ) / (sliceTotal pairs : ℚ)))).map
      fun p : (String × String) × ℚ => p.2
  rw [hperm.sum_eq, List.map_map]
  have hcomp2 : ((fun p : (String × String) × ℚ => p.2) ∘
      (fun p : (String × String) × Nat => (p.1, (p.2 : ℚ) / (sliceTotal pairs : ℚ))))
      = fun p : (String × String) × Nat => (p.2 : ℚ) / (sliceTotal pairs : ℚ) := rfl
  rw [hcomp2, list_sum_map_div]
  have hcast : ((top10 pairs).map fun p : (String × String) × Nat => ((p.2 : ℕ) : ℚ)).sum
      = ((sliceTotal pairs : ℕ) : ℚ) := by
    rw [sliceTotal, Nat.cast_list_sum, List.map_map]
    rfl
  rw [hcast, div_self hT]

/-- Every written breakdown row carries the rate of its kept pair,
normalized by the kept slice total. -/
theorem breakdownRows_rate {pairs : List (String × String)} :
    ∀ r ∈ breakdownRows pairs, ∃ c : Nat, ((r.1, r.2.1), c) ∈ top10 pairs ∧
      r.2.2 = (c : ℚ) / (sliceTotal pairs : ℚ) := by
  intro r hr
  unfold breakdownRows at hr
  rcases List.mem_map.mp hr with ⟨q, hq, rfl⟩
  have hq2 := (List.mem_insertionSort descBySnd).mp hq
  rcases List.mem_map.mp hq2 with ⟨p, hp, rfl⟩
  refine ⟨p.2, ?_, rfl⟩
  simpa using hp

/-- **C2**: in each top-10 breakdown aggregation, every kept row's rate
is its count divided by the sum of counts over the kept slice only, so
the `WinRate` column of the written breakdown file sums to exactly 1
(exactly, in rational arithmetic); and the file the run writes is the
breakdown of the (opening, result) pair column. -/
theorem c2_top10_rate_normalization :
    (∀ pairs : List (String × String), pairs ≠ [] →
      (∀ r ∈ breakdownRows pairs, ∃ c : Nat, ((r.1, r.2.1), c) ∈ top10 pairs ∧
        r.2.2 = (c : ℚ) / (sliceTotal pairs : ℚ)) ∧
      ((breakdownRows pairs).map fun r => r.2.2).sum = 1) ∧
    (∀ fs : List (List Game), fs ≠ [] → fs.flatten ≠ [] →
      (run fs).outputs.getLast? = some ("error_summary.csv", CsvContent.breakdown
        (breakdownRows ((fs.flatten.map recordOf).map
          fun r => (r.opening, r.result))))) := by
  constructor
  · intro pairs h
    exact ⟨breakdownRows_rate, breakdownRows_sum h⟩
  · intro fs h1 h2
    rw [run_of_nonempty fs h1 h2]
    rfl

/-- Witness for C2: a three-pair column over two groups, and the run on
one concrete game. -/
theorem c2_witness :
    ((breakdownRows [("A", "1-0"), ("A", "1-0"), ("B", "0-1")]).map
        fun r => r.2.2).sum = 1 ∧
    (run [[gItalian]]).outputs.getLast? = some ("error_summary.csv",
      CsvContent.breakdown (breakdownRows [("Italian Game", "1-0")])) :=
  ⟨(c2_top10_rate_normalization.1 [("A", "1-0"), ("A", "1-0"), ("B", "0-1")]
      (by decide)).2,
   c2_top10_rate_normalization.2 [[gItalian]] (by decide) (by decide)⟩
